import Mathlib

/-
Verification of the `yieldthought/agents` worker against its specification.

The Python sources under `src/yieldthought_agents/` are shallowly embedded:
pure string manipulation becomes Lean functions on `String` / `List Char`,
shell/transport effects become explicit inputs (process results, comment
streams) or `Except`-valued functions, and Python dicts of metrics become
association lists.  Python's `str.splitlines` is modelled for
newline-delimited text (the worker's own outputs are `\n`-delimited), and
`str.lower` for ASCII text.
-/

namespace YtAgents

/-! ### Python string primitives -/

/-- Whitespace characters removed by Python's `str.strip()`. -/
def isPySpace (c : Char) : Bool :=
  c = ' ' || c = '\t' || c = '\n' || c = '\r' || c = '\x0b' || c = '\x0c'

/-- Python `str.strip()` on a character list. -/
def stripChars (cs : List Char) : List Char :=
  ((cs.dropWhile isPySpace).reverse.dropWhile isPySpace).reverse

/-- Python `str.strip()`. -/
def pyStrip (s : String) : String :=
  String.mk (stripChars s.data)

/-- Split a character list at newline characters (keeping empty pieces). -/
def splitOnNl : List Char → List (List Char)
  | [] => [[]]
  | c :: rest =>
      let acc := splitOnNl rest
      if c = '\n' then [] :: acc
      else
        match acc with
        | [] => [[c]]
        | h :: t => (c :: h) :: t

/-- Python `str.splitlines()` for newline-delimited text: split at each
newline and drop the trailing empty piece produced by a final newline
(so `"a\nb\n"` yields `["a", "b"]` and `""` yields `[]`). -/
def pySplitlines (s : String) : List String :=
  let parts := splitOnNl s.data
  let parts := if parts.getLast? = some [] then parts.dropLast else parts
  parts.map String.mk

/-- Python `needle in hay` substring membership on character lists. -/
def containsChars (needle : List Char) : List Char → Bool
  | [] => needle.isEmpty
  | c :: rest => needle.isPrefixOf (c :: rest) || containsChars needle rest

/-- Python `needle in hay` on strings. -/
def strContains (hay needle : String) : Bool :=
  containsChars needle.data hay.data

/-- Python `s.startswith(pre)`. -/
def strStarts (pre s : String) : Bool :=
  pre.data.isPrefixOf s.data

/-- Python `str.lower()` for ASCII text. -/
def pyLower (s : String) : String :=
  String.mk (s.data.map Char.toLower)

/-- The text after the first occurrence of `sep`, i.e. Python
`s.split(sep, 1)[1]` (empty when `sep` does not occur). -/
def splitOnceAfter (sep : Char) (s : String) : String :=
  match s.data.dropWhile (fun c => decide (c ≠ sep)) with
  | _ :: rest => String.mk rest
  | [] => ""

/-- Python `"sep".join`, i.e. `String.intercalate` spelled out on lists so
its algebra is easy to reason about. -/
def pyJoin (sep : String) : List String → String
  | [] => ""
  | [s] => s
  | s :: rest => s ++ sep ++ pyJoin sep rest

/-! ### `shell.tail_lines` -/

/-- `shell.tail_lines`: the last `count` lines of `text` re-joined with
newlines, `""` for empty text. -/
def tail_lines (text : String) (count : Nat := 40) : String :=
  if text = "" then ""
  else
    let lines := pySplitlines text
    pyJoin "\n" (lines.drop (lines.length - count))

/-! ### A JSON codec for metrics payloads

The tasks exchange metrics as flat JSON objects whose values are numbers or
booleans, produced by Python's `json.dumps` and read back by `json.loads`.
The codec below models that round trip for such payloads: numbers are kept
as decimal literals (sign, integer part, fraction digits), matching the
textual form `json.dumps` emits for them, and object keys are modelled as
unescaped strings (the round-trip theorem restricts keys to printable ASCII
without `"` or `\`, the characters `json.dumps` passes through verbatim). -/

/-- A metrics value: a decimal number or a boolean. -/
inductive MVal where
  | jnum (neg : Bool) (ip : Nat) (fp : List (Fin 10)) : MVal
  | jbool (b : Bool) : MVal
deriving DecidableEq, Repr

/-- A metrics payload: an ordered association list, as decoded from a flat
JSON object (Python dicts preserve insertion order). -/
abbrev Metrics : Type := List (String × MVal)

/-- The decimal digit character for `d`. -/
def digitChar10 (d : Fin 10) : Char :=
  match d with
  | 0 => '0' | 1 => '1' | 2 => '2' | 3 => '3' | 4 => '4'
  | 5 => '5' | 6 => '6' | 7 => '7' | 8 => '8' | 9 => '9'

/-- The value of a decimal digit character, if it is one (the codes of
`'0'`..`'9'` are 48..57). -/
def charDigit10 (c : Char) : Option (Fin 10) :=
  if h : 48 ≤ c.toNat ∧ c.toNat ≤ 57 then some ⟨c.toNat - 48, by omega⟩ else none

/-- Whether `c` is a decimal digit character. -/
def isDigit10 (c : Char) : Bool :=
  (charDigit10 c).isSome

/-- Little-endian base-10 digits of `n` (`[]` for zero), with explicit
fuel so it evaluates by structural recursion; `fuel ≥ n` suffices. -/
def natDigitsRevFuel : Nat → Nat → List Nat
  | 0, _ => []
  | fuel + 1, n => if n = 0 then [] else n % 10 :: natDigitsRevFuel fuel (n / 10)

/-- Decimal rendering of a natural number (`"0"` for zero, no leading
zeros otherwise), via its base-10 digit expansion. -/
def natToChars (n : Nat) : List Char :=
  if n = 0 then ['0']
  else ((natDigitsRevFuel n n).reverse).map
    (fun d => digitChar10 ⟨d % 10, Nat.mod_lt d (by norm_num)⟩)

/-- Read a run of digit characters into digit values, if all are digits. -/
def charsToDigits : List Char → Option (List (Fin 10))
  | [] => some []
  | c :: rest =>
      match charDigit10 c, charsToDigits rest with
      | some d, some ds => some (d :: ds)
      | _, _ => none

/-- Read a decimal digit string back to a natural number. -/
def charsToNat (cs : List Char) : Option Nat :=
  match charsToDigits cs with
  | some ds => some (Nat.ofDigits 10 ((ds.map Fin.val).reverse))
  | none => none

/-- Serialize one metrics value the way `json.dumps` prints it. -/
def printMVal : MVal → List Char
  | .jbool true => "true".data
  | .jbool false => "false".data
  | .jnum neg ip fp =>
      (if neg then ['-'] else []) ++ natToChars ip ++
        (if fp.isEmpty then [] else '.' :: fp.map digitChar10)

/-- Serialize one `"key": value` pair the way `json.dumps` prints it. -/
def printPair (p : String × MVal) : List Char :=
  '"' :: p.1.data ++ '"' :: ':' :: ' ' :: printMVal p.2

/-- Join printed pairs with `json.dumps`'s default `", "` separator. -/
def joinPairs : List (List Char) → List Char
  | [] => []
  | [p] => p
  | p :: rest => p ++ ',' :: ' ' :: joinPairs rest

/-- `json.dumps` for a flat metrics object (default separators). -/
def dumps (m : Metrics) : String :=
  String.mk ('{' :: joinPairs (m.map printPair) ++ ['}'])

/-- A character `json.dumps` passes through verbatim inside a string:
printable ASCII other than the quote and the backslash.  The round-trip
theorem restricts object keys to such characters. -/
def jsonPlainChar (c : Char) : Prop :=
  32 ≤ c.toNat ∧ c.toNat < 128 ∧ c ≠ '"' ∧ c ≠ '\\'

instance (c : Char) : Decidable (jsonPlainChar c) :=
  inferInstanceAs (Decidable (_ ∧ _ ∧ _ ∧ _))

/-- Whether a character is not the string-closing quote. -/
def notQuote (c : Char) : Bool :=
  decide (c ≠ '"')

/-- Parse a JSON string body after its opening quote, up to the closing
quote; keys are modelled as unescaped character runs. -/
def parseKey (cs : List Char) : Option (String × List Char) :=
  match cs with
  | '"' :: rest =>
      let k := rest.takeWhile notQuote
      match rest.dropWhile notQuote with
      | '"' :: r => some (String.mk k, r)
      | _ => none
  | _ => none

/-- Parse the digits of a JSON number after its optional sign: integer
digits, then an optional point and fraction digits. -/
def parseDigitsPart (neg : Bool) (cs1 : List Char) : Option (MVal × List Char) :=
  let ipChars := cs1.takeWhile isDigit10
  let cs2 := cs1.dropWhile isDigit10
  if ipChars.isEmpty then none
  else
    match charsToNat ipChars with
    | none => none
    | some ip =>
        if cs2.head? = some '.' then
          let cs3 := cs2.tail
          let fpChars := cs3.takeWhile isDigit10
          let cs4 := cs3.dropWhile isDigit10
          if fpChars.isEmpty then none
          else
            match charsToDigits fpChars with
            | none => none
            | some fp => some (.jnum neg ip fp, cs4)
        else some (.jnum neg ip [], cs2)

/-- Parse a JSON number or boolean in the canonical form `json.dumps`
emits (literal booleans; digits with optional sign and fraction). -/
def parseMVal (cs : List Char) : Option (MVal × List Char) :=
  if "true".data.isPrefixOf cs then some (.jbool true, cs.drop 4)
  else if "false".data.isPrefixOf cs then some (.jbool false, cs.drop 5)
  else if cs.head? = some '-' then parseDigitsPart true cs.tail
  else parseDigitsPart false cs

/-- Parse the pair list of a flat JSON object after the opening brace,
consuming the closing brace and requiring the input to end there.  `fuel`
bounds the number of pairs and only needs to exceed it. -/
def parsePairs : Nat → List Char → Option Metrics
  | 0, _ => none
  | fuel + 1, cs =>
      match parseKey cs with
      | none => none
      | some (k, r1) =>
          match r1 with
          | ':' :: ' ' :: r2 =>
              (match parseMVal r2 with
               | none => none
               | some (v, r3) =>
                   match r3 with
                   | '}' :: r4 => if r4.isEmpty then some [(k, v)] else none
                   | ',' :: ' ' :: r4 =>
                       (match parsePairs fuel r4 with
                        | none => none
                        | some tl => some ((k, v) :: tl))
                   | _ => none)
          | _ => none

/-- `json.loads` for the canonical flat metrics objects `dumps` emits. -/
def loads (s : String) : Option Metrics :=
  match s.data with
  | '{' :: cs => if cs = ['}'] then some ([] : Metrics) else parsePairs cs.length cs
  | _ => none

/-- Numeric value of a metrics entry, with Python's coercion of booleans
to `0`/`1` under arithmetic comparison; a decimal `ip.fp` denotes
`(ip·10^k + fp) / 10^k` for `k` fraction digits. -/
def mvalToQ : MVal → ℚ
  | .jbool b => if b then 1 else 0
  | .jnum neg ip fp =>
      let num : Int := fp.foldl (fun acc d => acc * 10 + (d.val : Int)) (ip : Int)
      Rat.divInt (if neg then -num else num) (Int.ofNat (Nat.pow 10 fp.length))

/-- Python `metrics.get(key, default)` as a numeric value; for duplicate
keys the later binding wins, as in a dict built by `json.loads`. -/
def mgetQ (m : Metrics) (key : String) (default : ℚ) : ℚ :=
  match m.foldl (fun acc p => if p.1 = key then some p.2 else acc) none with
  | some v => mvalToQ v
  | none => default

/-! ### `tasks/functional_bringup.py` -/

/-- The observable result of one shell command (`subprocess.CompletedProcess`):
exit code and captured output streams. -/
structure ProcResult where
  returncode : Int
  stdout : String
  stderr : String
deriving DecidableEq, Repr

/-- `parse_metrics`: scan output for the first `YT_METRICS=<json>` line and
decode the payload after the first `=`; a missing line or undecodable
payload yields `none`. -/
def parse_metrics (output : String) : Option Metrics :=
  match (pySplitlines output).find? (fun line => strStarts "YT_METRICS=" line) with
  | some line => loads (pyStrip (splitOnceAfter '=' line))
  | none => none

/-- `_metrics_ok`: `metrics.get("top1", 0) >= top1_min and
metrics.get("top5", 0) >= top5_min`. -/
def _metrics_ok (metrics : Metrics) (top1_min top5_min : ℚ) : Bool :=
  decide (mgetQ metrics "top1" 0 ≥ top1_min) && decide (mgetQ metrics "top5" 0 ≥ top5_min)

/-- `_format_cmd`: join command parts with single spaces. -/
def _format_cmd (cmd : List String) : String :=
  pyJoin " " cmd

/-- `_format_failure`: the diagnostic block for a failed check step;
the metrics payload is included only when present and non-empty. -/
def _format_failure (cmd : List String) (stdout stderr : String) (metrics : Option Metrics) :
    String :=
  let summary := ["Command failed: " ++ _format_cmd cmd]
  let summary := summary ++
    (match metrics with
     | some m => if m.isEmpty then [] else ["metrics: " ++ dumps m]
     | none => [])
  let summary := summary ++ (if stdout = "" then [] else ["stdout tail:\n" ++ tail_lines stdout])
  let summary := summary ++ (if stderr = "" then [] else ["stderr tail:\n" ++ tail_lines stderr])
  pyJoin "\n" summary

/-- The task configuration fields that feed `check` and `_eval_command`. -/
structure TaskCfg where
  hf_model_id : String
  system : String
  top1_min : ℚ
  top5_min : ℚ
  prefill_len : Option Int
  decode_len : Option Int
  batch : Option Int
deriving DecidableEq, Repr

/-- `_eval_command`: the eval invocation for a mode and optional trace flag. -/
def _eval_command (cfg : TaskCfg) (mode : String) (trace : Option Nat) : List String :=
  ["python", "scripts/run_eval.py", "--mode", mode, "--hf-model", cfg.hf_model_id,
    "--system", cfg.system]
  ++ (match cfg.prefill_len with
      | some v => ["--prefill-len", toString v]
      | none => [])
  ++ (match cfg.decode_len with
      | some v => ["--decode-len", toString v]
      | none => [])
  ++ (match cfg.batch with
      | some v => ["--batch", toString v]
      | none => [])
  ++ (match trace with
      | some t => ["--trace", toString t]
      | none => [])

/-- `_parse_agent_check`: find the first line whose stripped, lowercased form
starts with `check=` and classify its status; returns the pass flag and the
status text handed back to the caller. -/
def _parse_agent_check (output : String) : Bool × String :=
  match (pySplitlines output).find?
      (fun line => strStarts "check=" (pyLower (pyStrip line))) with
  | some line =>
      let stripped := pyStrip line
      let status := pyLower (pyStrip (splitOnceAfter '=' stripped))
      if status = "pass" then (true, output)
      else if status = "fail" then (false, output)
      else (false, "Agent check returned unknown status: " ++ stripped ++ "\n" ++ output)
  | none => (false, "Agent check missing CHECK=PASS/FAIL line.\n" ++ output)

/-- `_run_agent_check`: a raised agent call becomes an error diagnostic, a
parsed FAIL (or unparseable marker) becomes a failure diagnostic, a parsed
PASS yields no diagnostic. -/
def _run_agent_check (agentOutput : Except String String) : Option String :=
  match agentOutput with
  | .error e => some ("Agent check error: " ++ e)
  | .ok output =>
      let r := _parse_agent_check output
      if r.1 then none else some ("Agent check failed:\n" ++ r.2)

/-- One iteration of `check`'s step loop: the diagnostic a step contributes,
if any (`expectMetrics` marks the metric-gated steps). -/
def step_error (cfg : TaskCfg) (cmd : List String) (expectMetrics : Bool) (r : ProcResult) :
    Option String :=
  if r.returncode ≠ 0 then some (_format_failure cmd r.stdout r.stderr none)
  else if expectMetrics then
    match parse_metrics r.stdout with
    | none => some (_format_failure cmd r.stdout r.stderr none)
    | some m =>
        if m.isEmpty then some (_format_failure cmd r.stdout r.stderr none)
        else if _metrics_ok m cfg.top1_min cfg.top5_min then none
        else some (_format_failure cmd r.stdout r.stderr (some m))
  else none

/-- The shell results `check` observes for its four steps, plus the agent
review call's outcome (an exception becomes `.error`). -/
structure CheckInputs where
  pytest : ProcResult
  hf : ProcResult
  ttOff : ProcResult
  ttOn : ProcResult
  agent : Except String String
deriving Repr

/-- The singleton or empty list an optional diagnostic contributes. -/
def optToList : Option String → List String
  | none => []
  | some e => [e]

/-- The accumulated `errors` list of `FunctionalBringupTask.check`: each
step's diagnostic in order, then the agent check's. -/
def check_errors (cfg : TaskCfg) (inp : CheckInputs) : List String :=
  optToList (step_error cfg ["python", "-m", "pytest", "-q"] false inp.pytest)
  ++ optToList (step_error cfg (_eval_command cfg "hf" none) true inp.hf)
  ++ optToList (step_error cfg (_eval_command cfg "tt" (some 0)) true inp.ttOff)
  ++ optToList (step_error cfg (_eval_command cfg "tt" (some 1)) true inp.ttOn)
  ++ optToList (_run_agent_check inp.agent)

/-- `FunctionalBringupTask.check`: `None` when no step contributed a
diagnostic, otherwise all diagnostics joined with blank lines. -/
def check (cfg : TaskCfg) (inp : CheckInputs) : Option String :=
  let errors := check_errors cfg inp
  if errors.isEmpty then none else some (pyJoin "\n\n" errors)

/-! ### `_commit_work` -/

/-- The git operations `_commit_work` can issue, in order; the commit op
records the outcome flag that selects the message variant (the message
text itself plays no role in the claims and is elided). -/
inductive GitOp where
  | status
  | add
  | commit (success : Bool)
  | revParse
deriving DecidableEq, Repr

/-- The workspace state `_commit_work` observes: the porcelain status
output before it runs, the porcelain status it would observe immediately
after committing, and the commit id `rev-parse` would report. -/
structure GitEnv where
  statusBefore : String
  statusAfterCommit : String
  headSha : String
deriving DecidableEq, Repr

/-- `_commit_work`: the git operations performed, and either a raised
error or the recorded commit id (`none` when nothing was committed). -/
def _commit_work (env : GitEnv) (success : Bool) :
    List GitOp × Except String (Option String) :=
  if pyStrip env.statusBefore = "" then
    if success then ([.status], .error "No changes to commit after successful checks")
    else ([.status], .ok none)
  else
    let ops := [GitOp.status, .add, .commit success, .revParse, .status]
    if pyStrip env.statusAfterCommit ≠ "" then
      (ops, .error "Working tree not clean after commit")
    else (ops, .ok (some env.headSha))

/-! ### The bounded-retry executor (spec §4.3) -/

/-- A terminal outcome of the check/retry loop. -/
inductive TOutcome where
  | succeeded
  | exhausted
deriving DecidableEq, Repr

/-- A terminal outcome together with the number of attempts consumed. -/
structure ExecResult where
  outcome : TOutcome
  attempts : Nat
deriving DecidableEq, Repr

/-- Modelled from the spec: the bounded check/retry loop of the
`RetryingTaskExecutor` (the `codexapi.Task` driver that
`FunctionalBringupTask.__init__` configures with `max_attempts`; its code is
absent from the sources).  `checkAt k` is the check outcome after attempt
`k` (`none` means all validations passed, `some d` the accumulated
diagnostic fed into the next attempt); the loop runs attempts while budget
remains, stopping early on a passing check. -/
def execLoop (checkAt : Nat → Option String) : Nat → Nat → ExecResult
  | 0, used => ⟨.exhausted, used⟩
  | budget + 1, used =>
      match checkAt used with
      | none => ⟨.succeeded, used + 1⟩
      | some _ => execLoop checkAt budget (used + 1)

/-- Modelled from the spec: the executor as a whole — a failing `set_up`
is a setup error reported before any attempt; otherwise the bounded retry
loop runs, and exhaustion is an ordinary result, not an error. -/
def runTask (setup : Except String Unit) (checkAt : Nat → Option String)
    (maxAttempts : Nat) : Except String ExecResult :=
  match setup with
  | .error e => .error e
  | .ok _ => .ok (execLoop checkAt maxAttempts 0)

/-! ### `worker.py` — claim protocol and system detection -/

/-- A ticket comment as the claim lookups observe it: author login (absent
when the author is unresolvable), body, creation timestamp. -/
structure Comment where
  author : Option String
  body : String
  createdAt : String
deriving DecidableEq, Repr

/-- The claim record a lookup returns: author login, raw body, extracted
run identifier, creation timestamp. -/
structure ClaimRec where
  author : Option String
  body : String
  run_id : String
  created_at : String
deriving DecidableEq, Repr

/-- `_extract_claim_field`: the value of the first `field: value` line of a
claim comment body, stripped; `""` when absent. -/
def _extract_claim_field (body field : String) : String :=
  match (pySplitlines body).find?
      (fun line => strStarts (field ++ ":") (pyStrip line)) with
  | some line => pyStrip (splitOnceAfter ':' line)
  | none => ""

/-- Whether a comment body carries the claim tag. -/
def hasClaimTag (c : Comment) : Bool :=
  strContains c.body "[yt-claim]"

/-- Build the returned claim record from a tagged comment. -/
def commentToClaim (c : Comment) : ClaimRec :=
  ⟨c.author, c.body, _extract_claim_field c.body "run_id", c.createdAt⟩

/-- `GitHubClient.get_latest_claim`: the GraphQL query fetches only the
ticket's last 10 comments (`comments(last: 10)`), and the loop keeps the
most recent of them whose body carries the `[yt-claim]` tag. -/
def get_latest_claim (comments : List Comment) : Option ClaimRec :=
  let window := comments.drop (comments.length - 10)
  let lastClaim :=
    window.foldl (fun acc c => if hasClaimTag c then some c else acc) (none : Option Comment)
  lastClaim.map commentToClaim

/-- Modelled from the spec: `GitHubClient.get_first_claim`, the lookup
`Worker._claim_issue` calls, is absent from the sources; per §4.1 the
race-tolerant variant re-reads the comment stream and selects the *first*
comment bearing the claim tag, extracting the same record fields as
`get_latest_claim`. -/
def get_first_claim (comments : List Comment) : Option ClaimRec :=
  (comments.find? hasClaimTag).map commentToClaim

/-- The win test of `Worker._claim_issue` applied to the looked-up record:
no record, a foreign author, or a foreign run id is a loss. -/
def claimWins (viewerLogin run_id : String) (found : Option ClaimRec) : Bool :=
  match found with
  | none => false
  | some r =>
      if r.author ≠ some viewerLogin then false
      else if r.run_id ≠ run_id then false
      else true

/-- `Worker._claim_issue` after posting the claim comment for `run_id`:
judge the attempt on the re-read comment stream. -/
def _claim_issue (viewerLogin run_id : String) (readStream : List Comment) : Bool :=
  claimWins viewerLogin run_id (get_first_claim readStream)

/-- `Worker._claim_issue` with the lookup's transport explicit: a failed
re-read propagates as an error and is never judged. -/
def _claim_issueE (viewerLogin run_id : String)
    (lookup : Except String (Option ClaimRec)) : Except String Bool :=
  match lookup with
  | .error e => .error e
  | .ok found => .ok (claimWins viewerLogin run_id found)

/-! ### `detect_system` -/

/-- Python regex word characters (ASCII). -/
def isWordChar (c : Char) : Bool :=
  c.isAlphanum || c = '_'

/-- Whether position 0 starts a left word boundary given the previous
character. -/
def boundaryBefore : Option Char → Bool
  | none => true
  | some p => !isWordChar p

/-- Whether `\bn300\s+l\b` matches starting at the head of `cs` (the left
boundary is checked by the caller): literal `n300`, one or more whitespace
characters, literal `l`, then a right word boundary. -/
def n300MatchAt (cs : List Char) : Bool :=
  match cs with
  | 'n' :: '3' :: '0' :: '0' :: rest =>
      let sp := rest.takeWhile isPySpace
      let r2 := rest.dropWhile isPySpace
      !sp.isEmpty &&
        (match r2 with
         | 'l' :: r3 =>
             (match r3 with
              | [] => true
              | d :: _ => !isWordChar d)
         | _ => false)
  | _ => false

/-- The number of `re.findall(r"\bn300\s+l\b", text)` matches.  A match of
this pattern contains no `n` after its first character, so no two matches
can overlap and counting the positions where a match starts equals the
findall count. -/
def countN300L : Option Char → List Char → Nat
  | _, [] => 0
  | prev, c :: rest =>
      (if boundaryBefore prev && n300MatchAt (c :: rest) then 1 else 0)
        + countN300L (some c) rest

/-- The classification half of `detect_system` (worker.py lines 303-311):
lowercase the inventory text, look for `n150`, then count `\bn300\s+l\b`
matches. -/
def detectSystemText (stdout : String) : Except String String :=
  let text := pyLower stdout
  if strContains text "n150" then .ok "n150"
  else
    let n := countN300L none text.data
    if n ≥ 4 then .ok "lb"
    else if n ≠ 0 then .ok "n300"
    else .error "Unable to detect system type from tt-smi output: %s"

/-- `detect_system`: reject a failed or silent `tt-smi -ls` run, then
classify its output text. -/
def detect_system (r : ProcResult) : Except String String :=
  if r.returncode ≠ 0 then .error "Failed to run tt-smi -ls to detect YT_SYSTEM"
  else if r.stdout = "" then .error "tt-smi -ls output is empty, cannot detect system"
  else detectSystemText r.stdout

/-- Count of occurrences of `needle` as a plain substring of `hay`,
counting every start position (the indicator `"n300 l"` cannot overlap
itself, so this equals the non-overlapping count); this renders claim C7's
"contains the indicator substring N times" reading for comparison with the
code's regex count. -/
def countSubAux (needle : List Char) : List Char → Nat
  | [] => 0
  | c :: rest => (if needle.isPrefixOf (c :: rest) then 1 else 0) + countSubAux needle rest

/-- Substring-occurrence count on strings. -/
def countSub (needle hay : String) : Nat :=
  countSubAux needle.data hay.data

/-- The detector as claim C7 states it: substring containment and substring
counts in place of the code's word-bounded whitespace-flexible regex. -/
def specDetectSystemText (stdout : String) : Except String String :=
  let text := pyLower stdout
  if strContains text "n150" then .ok "n150"
  else
    let n := countSub "n300 l" text
    if n ≥ 4 then .ok "lb"
    else if n ≠ 0 then .ok "n300"
    else .error "Unable to detect system type from tt-smi output: %s"

/-! ### `github.py` — project status moves -/

/-- The reasons `move_issue_status` raises, named as in the spec; the code
raises `RuntimeError` with, respectively, "Status field not found in
project", "Issue N not in project", "Issue N missing Status field", and
"Unknown status option: S". -/
inductive MoveStatusError where
  | missingStatusField
  | notInProject
  | missingStatusValue
  | unknownStatus
deriving DecidableEq, Repr

/-- A project field node: its name (absent for non-single-select fields,
whose inline fragment yields no data), field id, and option name→id list. -/
structure ProjField where
  name : Option String
  fid : String
  options : List (String × String)
deriving DecidableEq, Repr

/-- A project as the schema query returns it. -/
structure ProjectData where
  pid : String
  fields : List ProjField
deriving DecidableEq, Repr

/-- The per-process `ProjectFieldCache`. -/
structure ProjectCache where
  project_id : String
  status_field_id : String
  status_options : List (String × String)
deriving DecidableEq, Repr

/-- Python dict lookup over an association list built by insertion in
order: the last binding of a key wins. -/
def dictGet (kvs : List (String × String)) (key : String) : Option String :=
  kvs.foldl (fun acc p => if p.1 = key then some p.2 else acc) none

/-- `_project_cache_from_data`: keep the last field named `Status`;
no such field is an error. -/
def _project_cache_from_data (project : ProjectData) :
    Except MoveStatusError ProjectCache :=
  match project.fields.foldl
      (fun acc f => if f.name = some "Status" then some f else acc)
      (none : Option ProjField) with
  | none => .error .missingStatusField
  | some f => .ok ⟨project.pid, f.fid, f.options⟩

/-- One `ProjectV2ItemFieldSingleSelectValue` node of a project item: the
field's name and the selected option's name (either may be absent). -/
structure FieldValue where
  fieldName : Option String
  valueName : Option String
deriving DecidableEq, Repr

/-- A project membership item of an issue. -/
structure ProjItem where
  item_id : String
  projectId : Option String
  fieldValues : List FieldValue
deriving DecidableEq, Repr

/-- An existing issue's project membership data. -/
structure IssueData where
  projectItems : List ProjItem
deriving DecidableEq, Repr

/-- The status an item's field values carry: the last `Status`-named value
node's option name (which the data may leave absent). -/
def itemStatus (item : ProjItem) : Option String :=
  item.fieldValues.foldl
    (fun acc fv => if fv.fieldName = some "Status" then fv.valueName else acc)
    (none : Option String)

/-- `get_issue_project_item` for an existing issue: the first membership
item in the tracked project; its status is the last `Status` field value,
and an absent or empty one is an error. -/
def get_issue_project_item (issue : IssueData) (project_id : String) :
    Except MoveStatusError (String × String) :=
  match issue.projectItems.find? (fun item => decide (item.projectId = some project_id)) with
  | none => .error .notInProject
  | some item =>
      match itemStatus item with
      | none => .error .missingStatusValue
      | some s => if s = "" then .error .missingStatusValue else .ok (item.item_id, s)

/-- The single `updateProjectV2ItemFieldValue` mutation payload. -/
structure Mutation where
  project : String
  item : String
  field : String
  option : String
deriving DecidableEq, Repr

/-- `move_issue_status`: resolve the cached schema, the issue's membership
item, and the target option id (an absent or empty id is unknown), then
issue the single field-update mutation. -/
def move_issue_status (project : ProjectData) (issue : IssueData) (status : String) :
    Except MoveStatusError Mutation :=
  match _project_cache_from_data project with
  | .error e => .error e
  | .ok cache =>
      match get_issue_project_item issue cache.project_id with
      | .error e => .error e
      | .ok found =>
          match dictGet cache.status_options status with
          | none => .error .unknownStatus
          | some oid =>
              if oid = "" then .error .unknownStatus
              else .ok ⟨cache.project_id, found.1, cache.status_field_id, oid⟩

/-! ### Spec-side predicates for the refinement claims -/

/-- The spec's pass condition for one metric-gated validation step: clean
exit, a non-empty parsed metrics payload, and both accuracy thresholds
met (an absent key counts as 0, as in `_metrics_ok`). -/
def metricStepPasses (cfg : TaskCfg) (r : ProcResult) : Prop :=
  r.returncode = 0 ∧
    ∃ m, parse_metrics r.stdout = some m ∧ m ≠ [] ∧
      mgetQ m "top1" 0 ≥ cfg.top1_min ∧ mgetQ m "top5" 0 ≥ cfg.top5_min

/-- The spec's condition for `check` to succeed: the regression suite exits
cleanly, every metric-gated step passes its thresholds, and the behavioral
review yields an explicit PASS marker. -/
def specCheckPasses (cfg : TaskCfg) (inp : CheckInputs) : Prop :=
  inp.pytest.returncode = 0 ∧
    metricStepPasses cfg inp.hf ∧
    metricStepPasses cfg inp.ttOff ∧
    metricStepPasses cfg inp.ttOn ∧
    ∃ out, inp.agent = .ok out ∧ (_parse_agent_check out).1 = true

/-! ### Concrete check scenarios (spec §8's worked example) -/

/-- Thresholds `(0.90, 0.97)` from the worked example. -/
def exampleCfg : TaskCfg :=
  ⟨"meta/m", "n150", Rat.divInt 9 10, Rat.divInt 97 100, none, none, none⟩

/-- A metrics line with `top1 = 0.95`, `top5 = 0.98`. -/
def metricsLine95 : String :=
  "YT_METRICS=\x7b\"top1\": 0.95, \"top5\": 0.98\x7d"

/-- A metrics line with `top1 = 0.85`, `top5 = 0.98`. -/
def metricsLine85 : String :=
  "YT_METRICS=\x7b\"top1\": 0.85, \"top5\": 0.98\x7d"

/-- A cleanly exiting step emitting `out`. -/
def procOkWith (out : String) : ProcResult :=
  ⟨0, out, ""⟩

/-- All steps clean, all metrics at `(0.95, 0.98)`, agent PASS. -/
def examplePassInputs : CheckInputs :=
  ⟨⟨0, "", ""⟩, procOkWith metricsLine95, procOkWith metricsLine95,
    procOkWith metricsLine95, .ok "CHECK=PASS"⟩

/-- As `examplePassInputs` but the `hf` step reports `top1 = 0.85`. -/
def exampleFailInputs : CheckInputs :=
  ⟨⟨0, "", ""⟩, procOkWith metricsLine85, procOkWith metricsLine95,
    procOkWith metricsLine95, .ok "CHECK=PASS"⟩

/-! ## Helper lemmas -/

theorem find?_append_left {α : Type} {p : α → Bool} {l t : List α} {a : α}
    (h : l.find? p = some a) : (l ++ t).find? p = some a := by
  induction l with
  | nil => simp [List.find?] at h
  | cons x xs ih =>
    by_cases hx : p x = true
    · rw [List.find?_cons_of_pos _ hx] at h
      rw [List.cons_append, List.find?_cons_of_pos _ hx]
      exact h
    · rw [List.find?_cons_of_neg _ hx] at h
      rw [List.cons_append, List.find?_cons_of_neg _ hx]
      exact ih h

theorem find?_mono_of_take {α : Type} {p : α → Bool} {l₁ l₂ : List α} {a : α}
    (hpre : l₁ <+: l₂) (h : l₁.find? p = some a) : l₂.find? p = some a := by
  obtain ⟨t, rfl⟩ := hpre
  exact find?_append_left h

theorem comparableOfSameList {α : Type} :
    ∀ (l₁ l₂ l₃ : List α), l₁ <+: l₃ → l₂ <+: l₃ → l₁ <+: l₂ ∨ l₂ <+: l₁ := by
  intro l₁
  induction l₁ with
  | nil => exact fun l₂ l₃ _ _ => Or.inl ⟨l₂, by simp⟩
  | cons a l ih =>
    intro l₂ l₃ h₁ h₂
    cases l₂ with
    | nil => exact Or.inr ⟨a :: l, by simp⟩
    | cons b m =>
      obtain ⟨t₁, e₁⟩ := h₁
      obtain ⟨t₂, e₂⟩ := h₂
      cases l₃ with
      | nil => simp at e₁
      | cons c k =>
        simp only [List.cons_append, List.cons.injEq] at e₁ e₂
        have hab : a = b := e₁.1.trans e₂.1.symm
        have := ih m k ⟨t₁, e₁.2⟩ ⟨t₂, e₂.2⟩
        rcases this with h | h
        · obtain ⟨t, ht⟩ := h
          exact Or.inl ⟨t, by rw [List.cons_append, ht, hab]⟩
        · obtain ⟨t, ht⟩ := h
          exact Or.inr ⟨t, by rw [List.cons_append, ht, hab]⟩

theorem foldlKeepLast_none {l : List Comment}
    (h : ∀ c ∈ l, hasClaimTag c = false) :
    l.foldl (fun acc c => if hasClaimTag c then some c else acc)
      (none : Option Comment) = none := by
  induction l with
  | nil => rfl
  | cons c rest ih =>
    rw [List.foldl_cons]
    have hc : hasClaimTag c = false := h c (by simp)
    simp only [hc, Bool.false_eq_true, if_false]
    exact ih (fun x hx => h x (by simp [hx]))

/-! ## C10 — the authoritative-claim lookup inspects only the last 10 comments -/

/-- C10: if none of the 10 most recent comments carries the `[yt-claim]`
tag, `get_latest_claim` returns no record, regardless of any claim in the
older part of the stream. -/
theorem get_latest_claim_window_only (comments : List Comment)
    (h : ∀ c ∈ comments.drop (comments.length - 10), hasClaimTag c = false) :
    get_latest_claim comments = none := by
  have hrw : get_latest_claim comments
      = ((comments.drop (comments.length - 10)).foldl
          (fun acc c => if hasClaimTag c then some c else acc)
          (none : Option Comment)).map commentToClaim := rfl
  rw [hrw, foldlKeepLast_none h]
  rfl

/-- A stream of 11 comments whose first (oldest) comment is a claim and
whose last 10 are plain chatter: the old claim is never selected. -/
theorem get_latest_claim_window_only_witness :
    hasClaimTag ⟨some "w0", "[yt-claim]\nrun_id: r0", "t0"⟩ = true ∧
      get_latest_claim
        ((⟨some "w0", "[yt-claim]\nrun_id: r0", "t0"⟩ : Comment) ::
          (List.range 10).map (fun i => ⟨some "u", "plain comment", toString i⟩)) =
        none :=
  ⟨by decide, get_latest_claim_window_only _ (by decide)⟩

/-! ## C3 — a failed authoritative-identity lookup is never a win -/

/-- C3: with the re-read transport made explicit, a lookup error propagates
as an error — it never yields the winning result; every `ok` verdict comes
from an `ok` lookup judged by the win test. -/
theorem claim_lookup_error_is_loss (v r e : String) :
    _claim_issueE v r (.error e) = .error e ∧
      ∀ lookup b, _claim_issueE v r lookup = .ok b →
        ∃ found, lookup = .ok found ∧ b = claimWins v r found := by
  refine ⟨rfl, ?_⟩
  intro lookup b h
  cases lookup with
  | error e' => simp [_claim_issueE] at h
  | ok found =>
    refine ⟨found, rfl, ?_⟩
    simpa [_claim_issueE] using h.symm

/-- A concrete failed lookup is propagated, and a concrete judged loss
comes from its `ok` lookup. -/
theorem claim_lookup_error_is_loss_witness :
    _claim_issueE "alice" "r1" (.error "transport down") = .error "transport down" ∧
      ∃ found, (Except.ok (none : Option ClaimRec) : Except String (Option ClaimRec)) =
          .ok found ∧ false = claimWins "alice" "r1" found :=
  ⟨(claim_lookup_error_is_loss "alice" "r1" "transport down").1,
    (claim_lookup_error_is_loss "alice" "r1" "transport down").2 (.ok none) false rfl⟩

/-! ## C4 — the executor never exceeds the attempt budget -/

theorem execLoop_attempts_le (checkAt : Nat → Option String) :
    ∀ budget used, (execLoop checkAt budget used).attempts ≤ used + budget := by
  intro budget
  induction budget with
  | zero => intro used; simp [execLoop]
  | succ b ih =>
    intro used
    cases h : checkAt used with
    | none => simp [execLoop, h]
    | some d =>
      have := ih (used + 1)
      simp only [execLoop, h]
      omega

theorem execLoop_all_fail (checkAt : Nat → Option String)
    (h : ∀ k, checkAt k ≠ none) :
    ∀ budget used, execLoop checkAt budget used = ⟨.exhausted, used + budget⟩ := by
  intro budget
  induction budget with
  | zero => intro used; simp [execLoop]
  | succ b ih =>
    intro used
    cases hk : checkAt used with
    | none => exact absurd hk (h used)
    | some d =>
      simp only [execLoop, hk, ih (used + 1)]
      congr 1
      omega

/-- C4: every terminal result consumed at most `maxAttempts` attempts, and
with a 3-attempt budget and an always-failing check the terminal outcome is
exhaustion after exactly 3 attempts — an ordinary failure result, not a
raised error. -/
theorem executor_attempt_budget :
    (∀ setup checkAt maxAttempts r,
        runTask setup checkAt maxAttempts = .ok r → r.attempts ≤ maxAttempts) ∧
      ∀ checkAt, (∀ k, checkAt k ≠ none) →
        runTask (.ok ()) checkAt 3 = .ok ⟨.exhausted, 3⟩ := by
  constructor
  · intro setup checkAt n r h
    cases setup with
    | error e => simp [runTask] at h
    | ok u =>
      simp only [runTask, Except.ok.injEq] at h
      rw [← h]
      simpa using execLoop_attempts_le checkAt n 0
  · intro checkAt h
    simp only [runTask]
    rw [execLoop_all_fail checkAt h 3 0]

/-- The always-failing check at budget 3 exhausts in exactly 3 attempts,
and that terminal result respects the budget bound. -/
theorem executor_attempt_budget_witness :
    runTask (.ok ()) (fun _ => some "diag") 3 = .ok ⟨.exhausted, 3⟩ ∧
      (⟨TOutcome.exhausted, 3⟩ : ExecResult).attempts ≤ 3 :=
  ⟨executor_attempt_budget.2 (fun _ => some "diag") (fun _ => by simp),
    executor_attempt_budget.1 (.ok ()) (fun _ => some "diag") 3 _
      (executor_attempt_budget.2 (fun _ => some "diag") (fun _ => by simp))⟩

/-! ## C6 — finalization contract -/

/-- C6: with no pending changes, a success outcome is a contract violation
and a failure outcome only observes status (no staging, no commit, no
error); with pending changes the full stage/commit/verify sequence runs —
a single `add` and a single `commit` — and a dirty post-commit workspace
is a fatal error. -/
theorem commit_work_contract (env : GitEnv) :
    (pyStrip env.statusBefore = "" →
        (_commit_work env true).2 = .error "No changes to commit after successful checks" ∧
          _commit_work env false = ([.status], .ok none)) ∧
      (pyStrip env.statusBefore ≠ "" → ∀ success,
        (_commit_work env success).1 = [.status, .add, .commit success, .revParse, .status] ∧
          (pyStrip env.statusAfterCommit ≠ "" →
            (_commit_work env success).2 = .error "Working tree not clean after commit")) := by
  constructor
  · intro h
    constructor <;> simp [_commit_work, h]
  · intro h success
    constructor
    · by_cases h2 : pyStrip env.statusAfterCommit = "" <;> simp [_commit_work, h, h2]
    · intro h2
      simp [_commit_work, h, h2]

/-- The three contract branches at concrete workspace states. -/
theorem commit_work_contract_witness :
    ((_commit_work ⟨"", "", "sha0"⟩ true).2 =
        .error "No changes to commit after successful checks" ∧
      _commit_work ⟨"", "", "sha0"⟩ false = ([.status], .ok none)) ∧
      (_commit_work ⟨" M f.py", "", "sha0"⟩ true).1 =
        [.status, .add, .commit true, .revParse, .status] ∧
      (_commit_work ⟨" M f.py", "?? junk", "sha0"⟩ true).2 =
        .error "Working tree not clean after commit" :=
  ⟨(commit_work_contract ⟨"", "", "sha0"⟩).1 (by decide),
    ((commit_work_contract ⟨" M f.py", "", "sha0"⟩).2 (by decide) true).1,
    ((commit_work_contract ⟨" M f.py", "?? junk", "sha0"⟩).2 (by decide) true).2 (by decide)⟩

/-! ## C7 — system detection -/

/-- C7 counterexample: `"n300  l"` (two spaces) contains neither the
`n150` indicator nor the literal substring `"n300 l"`, so the claim says
detection errors out — but the code's regex `\bn300\s+l\b` matches and the
detector returns the paired label. -/
theorem detect_system_substring_counterexample :
    detectSystemText "n300  l" = .ok "n300" ∧
      strContains (pyLower "n300  l") "n150" = false ∧
      countSub "n300 l" (pyLower "n300  l") = 0 ∧
      specDetectSystemText "n300  l" =
        .error "Unable to detect system type from tt-smi output: %s" := by
  refine ⟨rfl, rfl, rfl, rfl⟩

/-- C7 (amended): on the lowercased inventory text, an `n150` occurrence
yields the single-unit label; otherwise four or more matches of the
word-bounded pattern `n300`-whitespace-`l` yield the aggregate label, at
least one match yields the paired label, and no match is a detection
error; `detect_system` defers to this classification whenever `tt-smi`
exited cleanly with output. -/
theorem detect_system_amended (stdout : String) :
    (strContains (pyLower stdout) "n150" = true → detectSystemText stdout = .ok "n150") ∧
      (strContains (pyLower stdout) "n150" = false →
        (4 ≤ countN300L none (pyLower stdout).data → detectSystemText stdout = .ok "lb") ∧
          (countN300L none (pyLower stdout).data ≠ 0 →
            countN300L none (pyLower stdout).data < 4 →
            detectSystemText stdout = .ok "n300") ∧
          (countN300L none (pyLower stdout).data = 0 →
            detectSystemText stdout =
              .error "Unable to detect system type from tt-smi output: %s")) ∧
      ∀ r : ProcResult, r.returncode = 0 → r.stdout ≠ "" →
        detect_system r = detectSystemText r.stdout := by
  refine ⟨?_, ?_, ?_⟩
  · intro h
    simp [detectSystemText, h]
  · intro h
    refine ⟨?_, ?_, ?_⟩
    · intro h4
      simp [detectSystemText, h, h4]
    · intro hne hlt
      have h4 : ¬(4 ≤ countN300L none (pyLower stdout).data) := by omega
      simp [detectSystemText, h, h4, hne]
    · intro h0
      simp [detectSystemText, h, h0]
  · intro r hrc hout
    simp [detect_system, hrc, hout]

/-- The three classifications and the `detect_system` wrapper at concrete
inventory texts. -/
theorem detect_system_amended_witness :
    detectSystemText "Wormhole n150 L" = .ok "n150" ∧
      detectSystemText "Wormhole n300 L" = .ok "n300" ∧
      detectSystemText "a n300 l\nb n300 l\nc n300 l\nd n300 l" = .ok "lb" ∧
      detect_system ⟨0, "Wormhole n300 L", ""⟩ = detectSystemText "Wormhole n300 L" :=
  ⟨(detect_system_amended "Wormhole n150 L").1 (by decide),
    ((detect_system_amended "Wormhole n300 L").2.1 (by decide)).2.1 (by decide) (by decide),
    ((detect_system_amended "a n300 l\nb n300 l\nc n300 l\nd n300 l").2.1 (by decide)).1
      (by decide),
    (detect_system_amended "Wormhole n300 L").2.2 ⟨0, "Wormhole n300 L", ""⟩ rfl (by decide)⟩

/-! ## C2 — the win condition of a claim attempt -/

theorem claimWins_true_iff (v run_id : String) (o : Option ClaimRec) :
    claimWins v run_id o = true ↔
      ∃ c, o = some c ∧ c.author = some v ∧ c.run_id = run_id := by
  cases o with
  | none => simp [claimWins]
  | some c =>
    by_cases ha : c.author = some v
    · by_cases hr : c.run_id = run_id
      · simp [claimWins, ha, hr]
      · simp [claimWins, ha, hr]
    · simp [claimWins, ha]

/-- C2: a claim attempt wins exactly when the authoritative record selected
from the re-read comment stream exists, is authored by the worker's own
authenticated login, and carries the just-posted run identifier; any other
case — no record, foreign author, foreign run id — is a loss. -/
theorem claim_win_iff_own_record (v run_id : String) (stream : List Comment) :
    _claim_issue v run_id stream = true ↔
      ∃ c, get_first_claim stream = some c ∧ c.author = some v ∧ c.run_id = run_id :=
  claimWins_true_iff v run_id (get_first_claim stream)

/-! ## C1 — at most one winner per ticket -/

/-- C1: model the ticket's comment stream as an append-only log; each
contender's re-read observes a prefix of the final log (serialized appends
with monotonic read-after-write).  Two workers with distinct authenticated
logins can never both judge their claim attempts as wins: the authoritative
(first) tagged record is common to comparable reads, and it names at most
one author. -/
theorem claim_protocol_single_winner
    (finalLog readA readB : List Comment) (la lb ra rb : String)
    (hlogins : la ≠ lb) (hA : readA <+: finalLog) (hB : readB <+: finalLog) :
    ¬(_claim_issue la ra readA = true ∧ _claim_issue lb rb readB = true) := by
  rintro ⟨wa, wb⟩
  obtain ⟨recA, hgA, haA, -⟩ := (claim_win_iff_own_record la ra readA).mp wa
  obtain ⟨recB, hgB, haB, -⟩ := (claim_win_iff_own_record lb rb readB).mp wb
  simp only [get_first_claim] at hgA hgB
  obtain ⟨cA, hfA, hcA⟩ := Option.map_eq_some'.mp hgA
  obtain ⟨cB, hfB, hcB⟩ := Option.map_eq_some'.mp hgB
  rcases comparableOfSameList readA readB finalLog hA hB with hab | hba
  · have hfind : readB.find? hasClaimTag = some cA := find?_mono_of_take hab hfA
    have hc : cB = cA := Option.some.inj (hfB.symm.trans hfind)
    have hrec : recA = recB := by rw [← hcA, ← hcB, hc]
    have : some la = some lb := by rw [← haA, hrec, haB]
    exact hlogins (Option.some.inj this)
  · have hfind : readA.find? hasClaimTag = some cB := find?_mono_of_take hba hfB
    have hc : cA = cB := Option.some.inj (hfA.symm.trans hfind)
    have hrec : recA = recB := by rw [← hcA, ← hcB, hc]
    have : some la = some lb := by rw [← haA, hrec, haB]
    exact hlogins (Option.some.inj this)

/-- Two interleaved contenders on one ticket: alice posts and reads first
(observing only her claim), bob posts and reads the longer log; the
theorem rules out a double win at this concrete interleaving. -/
theorem claim_protocol_single_winner_witness :
    ¬(_claim_issue "alice" "ra"
          [⟨some "alice", "[yt-claim]\nrun_id: ra", "t1"⟩] = true ∧
        _claim_issue "bob" "rb"
          [⟨some "alice", "[yt-claim]\nrun_id: ra", "t1"⟩,
            ⟨some "bob", "[yt-claim]\nrun_id: rb", "t2"⟩] = true) :=
  claim_protocol_single_winner
    [⟨some "alice", "[yt-claim]\nrun_id: ra", "t1"⟩,
      ⟨some "bob", "[yt-claim]\nrun_id: rb", "t2"⟩]
    [⟨some "alice", "[yt-claim]\nrun_id: ra", "t1"⟩]
    [⟨some "alice", "[yt-claim]\nrun_id: ra", "t1"⟩,
      ⟨some "bob", "[yt-claim]\nrun_id: rb", "t2"⟩]
    "alice" "bob" "ra" "rb" (by decide)
    ⟨[⟨some "bob", "[yt-claim]\nrun_id: rb", "t2"⟩], rfl⟩
    ⟨[], by simp⟩

/-! ## C9 — status-move error conditions -/

theorem statusFold_id (t : List ProjField) (init : Option ProjField)
    (h : ∀ f ∈ t, f.name ≠ some "Status") :
    t.foldl (fun acc f => if f.name = some "Status" then some f else acc) init = init := by
  induction t generalizing init with
  | nil => rfl
  | cons a s ih =>
    rw [List.foldl_cons, if_neg (h a (by simp))]
    exact ih init (fun f hf => h f (by simp [hf]))

theorem statusFold_some (fields : List ProjField) :
    ∀ init : Option ProjField, (∃ f ∈ fields, f.name = some "Status") →
      ∃ g, fields.foldl (fun acc f => if f.name = some "Status" then some f else acc)
        init = some g := by
  induction fields with
  | nil => intro init h; simp at h
  | cons a t ih =>
    intro init h
    rw [List.foldl_cons]
    by_cases hmem : ∃ f ∈ t, f.name = some "Status"
    · exact ih _ hmem
    · push_neg at hmem
      have ha : a.name = some "Status" := by
        rcases h with ⟨f, hf, hname⟩
        rcases List.mem_cons.mp hf with rfl | hft
        · exact hname
        · exact absurd hname (hmem f hft)
      rw [if_pos ha, statusFold_id t (some a) hmem]
      exact ⟨a, rfl⟩

theorem cache_ok_of_has_status (project : ProjectData)
    (h : ∃ f ∈ project.fields, f.name = some "Status") :
    ∃ cache, _project_cache_from_data project = .ok cache := by
  obtain ⟨g, hg⟩ := statusFold_some project.fields none h
  exact ⟨⟨project.pid, g.fid, g.options⟩, by simp [_project_cache_from_data, hg]⟩

theorem project_cache_pid (project : ProjectData) (cache : ProjectCache)
    (h : _project_cache_from_data project = .ok cache) :
    cache.project_id = project.pid := by
  rcases hfold : project.fields.foldl
      (fun acc f => if f.name = some "Status" then some f else acc)
      (none : Option ProjField) with _ | g
  · unfold _project_cache_from_data at h
    rw [hfold] at h
    simp at h
  · unfold _project_cache_from_data at h
    rw [hfold] at h
    simp only [Except.ok.injEq] at h
    rw [← h]

/-- C9 (amended): the move fails with `MissingStatusField` when the project
schema has no `Status` field; given the resolved schema cache it fails with
`NotInProject` when the ticket has no membership item in the tracked
project, fails (with the code's "missing Status field" error) when the
membership item carries no non-empty status value, fails with
`UnknownStatus` when the target name resolves to no non-empty option id,
and otherwise issues the single field-update mutation without error. -/
theorem move_issue_status_amended (project : ProjectData) (issue : IssueData)
    (status : String) :
    ((∀ f ∈ project.fields, f.name ≠ some "Status") →
        move_issue_status project issue status = .error .missingStatusField) ∧
      ((∃ f ∈ project.fields, f.name = some "Status") →
        ∃ cache, _project_cache_from_data project = .ok cache) ∧
      ∀ cache, _project_cache_from_data project = .ok cache →
        cache.project_id = project.pid ∧
        ((∀ it ∈ issue.projectItems, it.projectId ≠ some project.pid) →
            move_issue_status project issue status = .error .notInProject) ∧
        ∀ item, issue.projectItems.find?
            (fun it => decide (it.projectId = some project.pid)) = some item →
          ((itemStatus item = none ∨ itemStatus item = some "") →
              move_issue_status project issue status = .error .missingStatusValue) ∧
          ∀ s', itemStatus item = some s' → s' ≠ "" →
            ((dictGet cache.status_options status = none ∨
                dictGet cache.status_options status = some "") →
              move_issue_status project issue status = .error .unknownStatus) ∧
            ∀ oid, dictGet cache.status_options status = some oid → oid ≠ "" →
              move_issue_status project issue status =
                .ok ⟨project.pid, item.item_id, cache.status_field_id, oid⟩ := by
  refine ⟨?_, cache_ok_of_has_status project, ?_⟩
  · intro h
    have hfold := statusFold_id project.fields none h
    simp [move_issue_status, _project_cache_from_data, hfold]
  · intro cache hcache
    have hpid := project_cache_pid project cache hcache
    refine ⟨hpid, ?_, ?_⟩
    · intro hno
      have hfind : issue.projectItems.find?
          (fun it => decide (it.projectId = some cache.project_id)) = none := by
        rw [hpid]
        exact List.find?_eq_none.mpr (fun x hx => by simp [hno x hx])
      simp [move_issue_status, hcache, get_issue_project_item, hfind]
    · intro item hfind
      have hfind' : issue.projectItems.find?
          (fun it => decide (it.projectId = some cache.project_id)) = some item := by
        rw [hpid]
        exact hfind
      constructor
      · intro hst
        rcases hst with h0 | h0 <;>
          simp [move_issue_status, hcache, get_issue_project_item, hfind', h0]
      · intro s' hs' hne
        constructor
        · intro hopt
          rcases hopt with h0 | h0 <;>
            simp [move_issue_status, hcache, get_issue_project_item, hfind', hs', hne, h0]
        · intro oid hoid hne'
          simp [move_issue_status, hcache, get_issue_project_item, hfind, hfind', hs', hne,
            hoid, hne', hpid]

/-- C9 counterexample: a ticket whose membership item carries no status
value.  The schema has a `Status` field, the ticket is in the project, and
the target name has a matching (non-empty) option — none of the claim's
three error conditions holds — yet `move_issue_status` raises instead of
issuing the mutation. -/
theorem move_issue_status_counterexample :
    move_issue_status ⟨"P1", [⟨some "Status", "F1", [("ready", "O1")]⟩]⟩
        ⟨[⟨"I1", some "P1", []⟩]⟩ "ready" = .error .missingStatusValue ∧
      (∃ f ∈ [(⟨some "Status", "F1", [("ready", "O1")]⟩ : ProjField)],
          f.name = some "Status") ∧
      (∃ it ∈ [(⟨"I1", some "P1", []⟩ : ProjItem)], it.projectId = some "P1") ∧
      dictGet [("ready", "O1")] "ready" = some "O1" := by
  refine ⟨rfl, ?_, ?_, rfl⟩ <;> decide

/-- The success path at a concrete project and ticket: the mutation is the
expected one, after every guard is discharged. -/
theorem move_issue_status_amended_witness :
    move_issue_status
        ⟨"P1", [⟨some "Status", "F1", [("ready", "O1"), ("in progress", "O2")]⟩]⟩
        ⟨[⟨"I1", some "P1", [⟨some "Status", some "ready"⟩]⟩]⟩
        "in progress" = .ok ⟨"P1", "I1", "F1", "O2"⟩ :=
  ((((move_issue_status_amended
          ⟨"P1", [⟨some "Status", "F1", [("ready", "O1"), ("in progress", "O2")]⟩]⟩
          ⟨[⟨"I1", some "P1", [⟨some "Status", some "ready"⟩]⟩]⟩
          "in progress").2.2
        ⟨"P1", "F1", [("ready", "O1"), ("in progress", "O2")]⟩ rfl).2.2
      ⟨"I1", some "P1", [⟨some "Status", some "ready"⟩]⟩ (by decide)).2
    "ready" rfl (by decide)).2 "O2" rfl (by decide)

/-! ## C5 — `check` succeeds exactly when every step passes -/

theorem metrics_ok_iff (m : Metrics) (t1 t5 : ℚ) :
    _metrics_ok m t1 t5 = true ↔
      (mgetQ m "top1" 0 ≥ t1 ∧ mgetQ m "top5" 0 ≥ t5) := by
  simp [_metrics_ok]

theorem optToList_eq_nil (o : Option String) : optToList o = [] ↔ o = none := by
  cases o <;> simp [optToList]

theorem step_error_false_none_iff (cfg : TaskCfg) (cmd : List String) (r : ProcResult) :
    step_error cfg cmd false r = none ↔ r.returncode = 0 := by
  by_cases h : r.returncode = 0 <;> simp [step_error, h]

theorem step_error_true_none_iff (cfg : TaskCfg) (cmd : List String) (r : ProcResult) :
    step_error cfg cmd true r = none ↔ metricStepPasses cfg r := by
  by_cases h : r.returncode = 0
  · cases hm : parse_metrics r.stdout with
    | none => simp [step_error, metricStepPasses, h, hm]
    | some m =>
      by_cases he : m = []
      · simp [step_error, metricStepPasses, h, hm, he]
      · by_cases hok : mgetQ m "top1" 0 ≥ cfg.top1_min ∧ mgetQ m "top5" 0 ≥ cfg.top5_min
        · simp [step_error, metricStepPasses, h, hm, he, metrics_ok_iff, hok]
        · simp [step_error, metricStepPasses, h, hm, he, metrics_ok_iff, hok]
  · simp [step_error, metricStepPasses, h]

theorem agent_check_none_iff (a : Except String String) :
    _run_agent_check a = none ↔
      ∃ out, a = .ok out ∧ (_parse_agent_check out).1 = true := by
  cases a with
  | error e => simp [_run_agent_check]
  | ok out =>
    by_cases h : (_parse_agent_check out).1 = true <;> simp [_run_agent_check, h]

theorem check_eq_none_iff (cfg : TaskCfg) (inp : CheckInputs) :
    check cfg inp = none ↔ check_errors cfg inp = [] := by
  by_cases h : check_errors cfg inp = []
  · simp [check, h]
  · simp [check, h, List.isEmpty_eq_false.mpr h]

theorem pyJoin_decomp (sep e : String) :
    ∀ l : List String, e ∈ l → ∃ pre post, pyJoin sep l = pre ++ e ++ post := by
  intro l
  induction l with
  | nil => intro h; simp at h
  | cons s rest ih =>
    intro h
    rcases List.mem_cons.mp h with rfl | hrest
    · cases rest with
      | nil => exact ⟨"", "", by simp [pyJoin]⟩
      | cons r rs =>
        exact ⟨"", sep ++ pyJoin sep (r :: rs), by simp [pyJoin, String.append_assoc]⟩
    · obtain ⟨pre, post, hp⟩ := ih hrest
      cases rest with
      | nil => simp at hrest
      | cons r rs =>
        exact ⟨s ++ sep ++ pre, post, by simp [pyJoin, hp, String.append_assoc]⟩

/-- C5: `check` returns `None` exactly when the regression suite exits
cleanly, each metric-gated step's parsed metrics are non-empty and meet
both thresholds, and the behavioral review yields an explicit PASS
marker.  At the worked thresholds `(0.90, 0.97)`, metrics `(0.95, 0.98)`
pass while `(0.85, 0.98)` fail with a diagnostic that carries the metrics
payload naming the `top1` shortfall; and every failing step's diagnostic
appears verbatim inside the returned string. -/
theorem check_none_iff_all_steps_pass :
    (∀ cfg inp, check cfg inp = none ↔ specCheckPasses cfg inp) ∧
      check exampleCfg examplePassInputs = none ∧
      (check exampleCfg exampleFailInputs).any
          (fun s => strContains s "metrics: \x7b\"top1\": 0.85, \"top5\": 0.98\x7d") =
        true ∧
      ∀ cfg inp e, e ∈ check_errors cfg inp →
        ∃ pre post, check cfg inp = some (pre ++ e ++ post) := by
  refine ⟨?_, ?_, ?_, ?_⟩
  · intro cfg inp
    rw [check_eq_none_iff]
    unfold check_errors specCheckPasses
    simp [List.append_eq_nil, optToList_eq_nil, step_error_false_none_iff,
      step_error_true_none_iff, agent_check_none_iff]
  · decide
  · decide
  · intro cfg inp e he
    have hne : check_errors cfg inp ≠ [] := List.ne_nil_of_mem he
    obtain ⟨pre, post, hp⟩ := pyJoin_decomp "\n\n" e (check_errors cfg inp) he
    exact ⟨pre, post, by simp [check, List.isEmpty_eq_false.mpr hne, hp]⟩

set_option maxRecDepth 8192 in
/-- The main equivalence instantiated at the passing example, and a
concrete failing diagnostic containing its step's full error text. -/
theorem check_none_iff_all_steps_pass_witness :
    specCheckPasses exampleCfg examplePassInputs ∧
      ∃ pre post,
        check exampleCfg exampleFailInputs =
          some (pre ++
            _format_failure (_eval_command exampleCfg "hf" none) metricsLine85 ""
              (some [("top1", .jnum false 0 [8, 5]), ("top5", .jnum false 0 [9, 8])]) ++
            post) :=
  ⟨(check_none_iff_all_steps_pass.1 exampleCfg examplePassInputs).mp
      check_none_iff_all_steps_pass.2.1,
    check_none_iff_all_steps_pass.2.2.2 exampleCfg exampleFailInputs _ (by decide)⟩

/-! ## C8 — the `YT_METRICS=<json>` round trip -/

theorem strMk_data (s : String) : String.mk s.data = s := rfl

theorem charDigit10_digitChar10 (x : Fin 10) : charDigit10 (digitChar10 x) = some x := by
  fin_cases x <;> rfl

theorem isDigit10_digitChar10 (x : Fin 10) : isDigit10 (digitChar10 x) = true := by
  fin_cases x <;> rfl

theorem ne_of_isDigit10 {c : Char} (h : isDigit10 c = true) {x : Char}
    (hx : isDigit10 x = false) : c ≠ x := by
  intro he
  subst he
  rw [h] at hx
  cases hx

theorem natDigitsRevFuel_eq : ∀ fuel n, n ≤ fuel → natDigitsRevFuel fuel n = Nat.digits 10 n := by
  intro fuel
  induction fuel with
  | zero =>
    intro n h
    have h0 : n = 0 := Nat.le_zero.mp h
    subst h0
    simp [natDigitsRevFuel]
  | succ f ih =>
    intro n h
    by_cases h0 : n = 0
    · subst h0
      simp [natDigitsRevFuel]
    · have hdiv : n / 10 ≤ f := by
        have := Nat.div_lt_self (Nat.pos_of_ne_zero h0) (by norm_num : 1 < 10)
        omega
      simp only [natDigitsRevFuel, if_neg h0]
      rw [ih (n / 10) hdiv,
        ← Nat.digits_def' (by norm_num : 1 < 10) (Nat.pos_of_ne_zero h0)]

theorem natToChars_ne_nil (n : Nat) : natToChars n ≠ [] := by
  by_cases h : n = 0
  · simp [natToChars, h]
  · have hd : Nat.digits 10 n ≠ [] := Nat.digits_ne_nil_iff_ne_zero.mpr h
    simp only [natToChars, if_neg h, natDigitsRevFuel_eq n n le_rfl]
    simp [hd]

theorem natToChars_digits (n : Nat) : ∀ c ∈ natToChars n, isDigit10 c = true := by
  intro c hc
  by_cases h : n = 0
  · simp [natToChars, h] at hc
    subst hc
    decide
  · simp only [natToChars, if_neg h, List.mem_map] at hc
    obtain ⟨d, _, rfl⟩ := hc
    exact isDigit10_digitChar10 _

theorem charsToDigits_map (l : List (Fin 10)) :
    charsToDigits (l.map digitChar10) = some l := by
  induction l with
  | nil => rfl
  | cons d t ih => simp [charsToDigits, charDigit10_digitChar10, ih]

theorem charsToNat_natToChars (n : Nat) : charsToNat (natToChars n) = some n := by
  by_cases h : n = 0
  · subst h
    decide
  · simp only [natToChars, if_neg h, natDigitsRevFuel_eq n n le_rfl]
    have hmap : ((Nat.digits 10 n).reverse).map
          (fun d => digitChar10 ⟨d % 10, Nat.mod_lt d (by norm_num)⟩)
        = (((Nat.digits 10 n).reverse).map
            (fun d => (⟨d % 10, Nat.mod_lt d (by norm_num)⟩ : Fin 10))).map digitChar10 := by
      rw [List.map_map]
      rfl
    rw [hmap]
    simp only [charsToNat, charsToDigits_map]
    rw [List.map_map]
    have hval : ((Nat.digits 10 n).reverse).map
          (Fin.val ∘ fun d => (⟨d % 10, Nat.mod_lt d (by norm_num)⟩ : Fin 10))
        = (Nat.digits 10 n).reverse := by
      rw [show (Fin.val ∘ fun d => (⟨d % 10, Nat.mod_lt d (by norm_num)⟩ : Fin 10))
          = fun d => d % 10 from rfl]
      refine List.map_congr_left ?_ |>.trans (List.map_id _)
      intro d hd
      exact Nat.mod_eq_of_lt (Nat.digits_lt_base (by norm_num) (List.mem_reverse.mp hd))
    rw [hval, List.reverse_reverse, Nat.ofDigits_digits]

theorem spanOfAll {p : Char → Bool} :
    ∀ (A X : List Char), (∀ c ∈ A, p c = true) →
      (X = [] ∨ ∃ c t, X = c :: t ∧ p c = false) →
      (A ++ X).takeWhile p = A ∧ (A ++ X).dropWhile p = X := by
  intro A
  induction A with
  | nil =>
    intro X _ hX
    rcases hX with rfl | ⟨c, t, rfl, hc⟩
    · simp
    · simp [List.takeWhile_cons, List.dropWhile_cons, hc]
  | cons a A' ih =>
    intro X hA hX
    have ha : p a = true := hA a (by simp)
    have hrest := ih X (fun c hc => hA c (by simp [hc])) hX
    simp [List.takeWhile_cons, List.dropWhile_cons, ha, hrest.1, hrest.2]

theorem parseKey_print (k : String) (hk : ∀ c ∈ k.data, c ≠ '"') (X : List Char) :
    parseKey ('"' :: (k.data ++ '"' :: X)) = some (k, X) := by
  have hsp := spanOfAll (p := notQuote) k.data ('"' :: X)
    (fun c hc => by simp [notQuote, hk c hc])
    (Or.inr ⟨'"', X, rfl, by simp [notQuote]⟩)
  simp only [parseKey, hsp.1, hsp.2, strMk_data]

theorem parseDigitsPart_print (neg : Bool) (ip : Nat) (fp : List (Fin 10)) (X : List Char)
    (hX : X = [] ∨ ∃ c t, X = c :: t ∧ (c = ',' ∨ c = '}')) :
    parseDigitsPart neg
        (natToChars ip ++ ((if fp.isEmpty then [] else '.' :: fp.map digitChar10) ++ X)) =
      some (.jnum neg ip fp, X) := by
  have hXd : X = [] ∨ ∃ c t, X = c :: t ∧ isDigit10 c = false := by
    rcases hX with rfl | ⟨c, t, rfl, hc⟩
    · exact Or.inl rfl
    · refine Or.inr ⟨c, t, rfl, ?_⟩
      rcases hc with rfl | rfl <;> decide
  have hie : (natToChars ip).isEmpty = false :=
    List.isEmpty_eq_false.mpr (natToChars_ne_nil ip)
  have hnotdot : ¬(X.head? = some '.') := by
    rcases hX with rfl | ⟨c, t, rfl, hc⟩
    · simp
    · simp only [List.head?_cons, Option.some.injEq]
      rcases hc with rfl | rfl <;> decide
  rcases fp with _ | ⟨g, gs⟩
  · have hsp := spanOfAll (p := isDigit10) (natToChars ip) X (natToChars_digits ip) hXd
    simp only [List.isEmpty_nil, if_true, List.nil_append]
    simp [parseDigitsPart, hsp.1, hsp.2, hie, charsToNat_natToChars, hnotdot]
  · have hall : ∀ c ∈ (g :: gs).map digitChar10, isDigit10 c = true := by
      intro c hc
      obtain ⟨d, -, rfl⟩ := List.mem_map.mp hc
      exact isDigit10_digitChar10 d
    have hfe : ((g :: gs).map digitChar10).isEmpty = false := by simp
    have hsp1 := spanOfAll (p := isDigit10) (natToChars ip)
      ('.' :: ((g :: gs).map digitChar10 ++ X)) (natToChars_digits ip)
      (Or.inr ⟨'.', _, rfl, by decide⟩)
    have hsp2 := spanOfAll (p := isDigit10) ((g :: gs).map digitChar10) X hall hXd
    simp only [List.isEmpty_cons, Bool.false_eq_true, if_false, List.cons_append]
    simp only [parseDigitsPart, hsp1.1, hsp1.2, List.head?_cons, List.tail_cons,
      hsp2.1, hsp2.2, hie, hfe, charsToNat_natToChars, charsToDigits_map,
      Bool.false_eq_true, if_false]
    simp

theorem parseMVal_print (v : MVal) (X : List Char)
    (hX : X = [] ∨ ∃ c t, X = c :: t ∧ (c = ',' ∨ c = '}')) :
    parseMVal (printMVal v ++ X) = some (v, X) := by
  cases v with
  | jbool b =>
    cases b
    · show parseMVal ('f' :: 'a' :: 'l' :: 's' :: 'e' :: X) = some (.jbool false, X)
      simp [parseMVal, List.isPrefixOf]
    · show parseMVal ('t' :: 'r' :: 'u' :: 'e' :: X) = some (.jbool true, X)
      simp [parseMVal, List.isPrefixOf]
  | jnum neg ip fp =>
    obtain ⟨d, ds, hds⟩ : ∃ d ds, natToChars ip = d :: ds := by
      cases h : natToChars ip with
      | nil => exact absurd h (natToChars_ne_nil ip)
      | cons d ds => exact ⟨d, ds, rfl⟩
    have hd : isDigit10 d = true := natToChars_digits ip d (by rw [hds]; simp)
    have hdt : ('t' == d) = false := by
      have : d ≠ 't' := ne_of_isDigit10 hd (by decide)
      simp [Ne.symm this]
    have hdf : ('f' == d) = false := by
      have : d ≠ 'f' := ne_of_isDigit10 hd (by decide)
      simp [Ne.symm this]
    have hdm : d ≠ '-' := ne_of_isDigit10 hd (by decide)
    have hmain := parseDigitsPart_print neg ip fp X hX
    rw [hds] at hmain
    cases neg with
    | false =>
      have hshape : printMVal (.jnum false ip fp) ++ X
          = d :: (ds ++ ((if fp.isEmpty then [] else '.' :: fp.map digitChar10) ++ X)) := by
        simp [printMVal, hds]
      rw [hshape]
      have h1 : "true".data.isPrefixOf
          (d :: (ds ++ ((if fp.isEmpty then [] else '.' :: fp.map digitChar10) ++ X))) = false := by
        show (('t' == d) && List.isPrefixOf "rue".data
          (ds ++ ((if fp.isEmpty then [] else '.' :: fp.map digitChar10) ++ X))) = false
        rw [hdt, Bool.false_and]
      have h2 : "false".data.isPrefixOf
          (d :: (ds ++ ((if fp.isEmpty then [] else '.' :: fp.map digitChar10) ++ X))) = false := by
        show (('f' == d) && List.isPrefixOf "alse".data
          (ds ++ ((if fp.isEmpty then [] else '.' :: fp.map digitChar10) ++ X))) = false
        rw [hdf, Bool.false_and]
      have h3 : ¬((d :: (ds ++ ((if fp.isEmpty then [] else '.' :: fp.map digitChar10) ++ X))).head?
          = some '-') := by
        simp only [List.head?_cons, Option.some.injEq]
        exact hdm
      simp only [parseMVal, h1, h2, h3, Bool.false_eq_true, if_false]
      simpa using hmain
    | true =>
      have hshape : printMVal (.jnum true ip fp) ++ X
          = '-' :: ((d :: ds) ++ ((if fp.isEmpty then [] else '.' :: fp.map digitChar10) ++ X)) := by
        simp [printMVal, hds]
      rw [hshape]
      have h1 : "true".data.isPrefixOf
          ('-' :: ((d :: ds) ++ ((if fp.isEmpty then [] else '.' :: fp.map digitChar10) ++ X)))
          = false := by
        show (('t' == '-') && List.isPrefixOf "rue".data
          ((d :: ds) ++ ((if fp.isEmpty then [] else '.' :: fp.map digitChar10) ++ X))) = false
        rw [show ('t' == '-') = false from rfl, Bool.false_and]
      have h2 : "false".data.isPrefixOf
          ('-' :: ((d :: ds) ++ ((if fp.isEmpty then [] else '.' :: fp.map digitChar10) ++ X)))
          = false := by
        show (('f' == '-') && List.isPrefixOf "alse".data
          ((d :: ds) ++ ((if fp.isEmpty then [] else '.' :: fp.map digitChar10) ++ X))) = false
        rw [show ('f' == '-') = false from rfl, Bool.false_and]
      simp only [parseMVal, h1, h2, Bool.false_eq_true, if_false, List.head?_cons,
        Option.some.injEq, if_pos, List.tail_cons]
      simpa using hmain

theorem parsePairs_print :
    ∀ (m : Metrics), m ≠ [] → (∀ p ∈ m, ∀ c ∈ (p.1 : String).data, c ≠ '"') →
      ∀ fuel, m.length ≤ fuel →
      parsePairs fuel (joinPairs (m.map printPair) ++ ['}']) = some m := by
  intro m
  induction m with
  | nil => intro h; exact absurd rfl h
  | cons p tl ih =>
    intro _ hk fuel hfuel
    obtain ⟨k, v⟩ := p
    cases fuel with
    | zero => simp at hfuel
    | succ f =>
      cases tl with
      | nil =>
        have hkey := parseKey_print k (hk (k, v) (by simp)) (':' :: ' ' :: (printMVal v ++ ['}']))
        have hval := parseMVal_print v ['}'] (Or.inr ⟨'}', [], rfl, Or.inr rfl⟩)
        have hshape : joinPairs ([(k, v)].map printPair) ++ ['}']
            = '"' :: (k.data ++ '"' :: (':' :: ' ' :: (printMVal v ++ ['}']))) := by
          simp [joinPairs, printPair]
        rw [hshape]
        simp only [parsePairs, hkey, hval, List.isEmpty_nil, if_true]
      | cons q qs =>
        have hkey := parseKey_print k (hk (k, v) (by simp))
          (':' :: ' ' :: (printMVal v ++
            (',' :: ' ' :: (joinPairs ((q :: qs).map printPair) ++ ['}']))))
        have hval := parseMVal_print v
          (',' :: ' ' :: (joinPairs ((q :: qs).map printPair) ++ ['}']))
          (Or.inr ⟨',', _, rfl, Or.inl rfl⟩)
        have hih := ih (by simp) (fun p hp => hk p (by simp [hp])) f
          (by simpa using Nat.le_of_succ_le_succ hfuel)
        have hshape : joinPairs (((k, v) :: q :: qs).map printPair) ++ ['}']
            = '"' :: (k.data ++ '"' :: (':' :: ' ' :: (printMVal v ++
                (',' :: ' ' :: (joinPairs ((q :: qs).map printPair) ++ ['}']))))) := by
          simp [joinPairs, printPair]
        rw [hshape]
        simp only [parsePairs, hkey, hval, hih]

theorem printPair_ne_nil (p : String × MVal) : printPair p ≠ [] := by
  simp [printPair]

theorem joinPairs_length_ge :
    ∀ (L : List (List Char)), (∀ l ∈ L, l ≠ []) → L.length ≤ (joinPairs L).length := by
  intro L
  induction L with
  | nil => intro; simp [joinPairs]
  | cons x rest ih =>
    intro h
    cases rest with
    | nil =>
      have hx : x ≠ [] := h x (by simp)
      have : 1 ≤ x.length := by
        cases x with
        | nil => exact absurd rfl hx
        | cons a b => simp
      simpa [joinPairs] using this
    | cons y ys =>
      have hx : x ≠ [] := h x (by simp)
      have h1 : 1 ≤ x.length := by
        cases x with
        | nil => exact absurd rfl hx
        | cons a b => simp
      have h2 := ih (fun l hl => h l (by simp [hl]))
      simp only [List.length_cons] at h2
      simp only [joinPairs, List.length_append, List.length_cons]
      omega

theorem loads_dumps (m : Metrics)
    (hk : ∀ p ∈ m, ∀ c ∈ (p.1 : String).data, c ≠ '"') :
    loads (dumps m) = some m := by
  cases m with
  | nil => rfl
  | cons p tl =>
    obtain ⟨rest, hrest⟩ : ∃ rest, joinPairs (((p :: tl)).map printPair) = '"' :: rest := by
      obtain ⟨k, v⟩ := p
      cases tl with
      | nil =>
        exact ⟨k.data ++ '"' :: ':' :: ' ' :: printMVal v, by simp [joinPairs, printPair]⟩
      | cons q qs =>
        exact ⟨(k.data ++ '"' :: ':' :: ' ' :: printMVal v) ++
          ',' :: ' ' :: joinPairs ((q :: qs).map printPair), by
            simp [joinPairs, printPair]⟩
    have hlen : (p :: tl).length ≤ (joinPairs ((p :: tl).map printPair) ++ ['}']).length := by
      have := joinPairs_length_ge ((p :: tl).map printPair) (by
        intro l hl
        obtain ⟨q, -, rfl⟩ := List.mem_map.mp hl
        exact printPair_ne_nil q)
      simp only [List.length_append, List.length_map] at this ⊢
      omega
    have hguard : joinPairs ((p :: tl).map printPair) ++ ['}'] ≠ ['}'] := by
      rw [hrest]
      intro h
      simp at h
    have hload : loads (dumps (p :: tl))
        = if joinPairs ((p :: tl).map printPair) ++ ['}'] = ['}'] then some []
          else parsePairs (joinPairs ((p :: tl).map printPair) ++ ['}']).length
            (joinPairs ((p :: tl).map printPair) ++ ['}']) := rfl
    rw [hload, if_neg hguard]
    exact parsePairs_print (p :: tl) (by simp) hk _ hlen

theorem splitOnNl_no_nl : ∀ cs : List Char, (∀ c ∈ cs, c ≠ '\n') → splitOnNl cs = [cs] := by
  intro cs
  induction cs with
  | nil => intro _; rfl
  | cons c rest ih =>
    intro h
    have hc : c ≠ '\n' := h c (by simp)
    have hr := ih (fun x hx => h x (by simp [hx]))
    simp [splitOnNl, hc, hr]

theorem pySplitlines_single (s : String) (h : ∀ c ∈ s.data, c ≠ '\n')
    (hne : s.data ≠ []) : pySplitlines s = [s] := by
  have h1 : pySplitlines s
      = (if [s.data].getLast? = some [] then [s.data].dropLast else [s.data]).map
          String.mk := by
    simp only [pySplitlines, splitOnNl_no_nl s.data h]
  rw [h1, if_neg (by simp [hne]), List.map_cons, List.map_nil, strMk_data]

theorem isPre_self_append {α : Type} [BEq α] [LawfulBEq α] :
    ∀ (A B : List α), A.isPrefixOf (A ++ B) = true := by
  intro A B
  induction A with
  | nil => cases B <;> rfl
  | cons a as ih => simp [List.isPrefixOf, ih]

theorem dropWhile_metrics_tag (rest : List Char) :
    List.dropWhile (fun c => decide (c ≠ '='))
      ("YT_METRICS=".data ++ rest) = '=' :: rest := by
  show List.dropWhile (fun c => decide (c ≠ '='))
    ('Y' :: 'T' :: '_' :: 'M' :: 'E' :: 'T' :: 'R' :: 'I' :: 'C' :: 'S' :: '=' :: rest)
    = '=' :: rest
  simp [List.dropWhile_cons]

theorem splitOnceAfter_metrics (rest : String) :
    splitOnceAfter '=' ("YT_METRICS=" ++ rest) = rest := by
  simp only [splitOnceAfter, String.data_append, dropWhile_metrics_tag]
  exact strMk_data rest

theorem printMVal_no_nl (v : MVal) : ∀ c ∈ printMVal v, c ≠ '\n' := by
  intro c hc
  cases v with
  | jbool b =>
    cases b
    · have hc' : c ∈ ['f', 'a', 'l', 's', 'e'] := hc
      simp only [List.mem_cons, List.not_mem_nil, or_false] at hc'
      rcases hc' with rfl | rfl | rfl | rfl | rfl <;> decide
    · have hc' : c ∈ ['t', 'r', 'u', 'e'] := hc
      simp only [List.mem_cons, List.not_mem_nil, or_false] at hc'
      rcases hc' with rfl | rfl | rfl | rfl <;> decide
  | jnum neg ip fp =>
    simp only [printMVal, List.mem_append] at hc
    rcases hc with (hs | hn) | hf
    · revert hs
      cases neg <;> intro hs <;> simp at hs
      subst hs
      decide
    · exact ne_of_isDigit10 (natToChars_digits ip c hn) (by decide)
    · revert hf
      split <;> intro hf
      · simp at hf
      · simp only [List.mem_cons, List.mem_map] at hf
        rcases hf with rfl | ⟨d, -, rfl⟩
        · decide
        · exact ne_of_isDigit10 (isDigit10_digitChar10 d) (by decide)

theorem jsonPlainChar_ne_nl {c : Char} (h : jsonPlainChar c) : c ≠ '\n' := by
  intro he
  subst he
  have h10 : ('\n').toNat = 10 := rfl
  have := h.1
  omega

theorem printPair_no_nl (p : String × MVal) (hk : ∀ c ∈ p.1.data, jsonPlainChar c) :
    ∀ c ∈ printPair p, c ≠ '\n' := by
  intro c hc
  replace hc : c ∈ '"' :: (p.1.data ++ ('"' :: ':' :: ' ' :: printMVal p.2)) := hc
  rcases List.mem_cons.mp hc with rfl | hc2
  · decide
  rcases List.mem_append.mp hc2 with hkc | hc3
  · exact jsonPlainChar_ne_nl (hk c hkc)
  rcases List.mem_cons.mp hc3 with rfl | hc4
  · decide
  rcases List.mem_cons.mp hc4 with rfl | hc5
  · decide
  rcases List.mem_cons.mp hc5 with rfl | hm
  · decide
  · exact printMVal_no_nl p.2 c hm

theorem joinPairs_no_nl :
    ∀ (L : List (List Char)), (∀ l ∈ L, ∀ c ∈ l, c ≠ '\n') →
      ∀ c ∈ joinPairs L, c ≠ '\n' := by
  intro L
  induction L with
  | nil =>
    intro _ c hc
    simp [joinPairs] at hc
  | cons x rest ih =>
    intro h c hc
    cases rest with
    | nil =>
      simp only [joinPairs] at hc
      exact h x (by simp) c hc
    | cons y ys =>
      simp only [joinPairs, List.mem_append, List.mem_cons] at hc
      rcases hc with hx | rfl | rfl | hj
      · exact h x (by simp) c hx
      · decide
      · decide
      · exact ih (fun l hl => h l (by simp [hl])) c hj

theorem dumps_no_nl (m : Metrics)
    (hk : ∀ p ∈ m, ∀ c ∈ (p.1 : String).data, jsonPlainChar c) :
    ∀ c ∈ (dumps m).data, c ≠ '\n' := by
  intro c hc
  have hc' : c ∈ '{' :: (joinPairs (m.map printPair) ++ ['}']) := hc
  simp only [List.mem_cons, List.mem_append] at hc'
  rcases hc' with rfl | hj | rfl | hb
  · decide
  · refine joinPairs_no_nl _ ?_ c hj
    intro l hl
    obtain ⟨p, hp, rfl⟩ := List.mem_map.mp hl
    exact printPair_no_nl p (hk p hp)
  · decide
  · simp at hb

theorem pyStrip_dumps (m : Metrics) : pyStrip (dumps m) = dumps m := by
  have h1 : isPySpace '{' = false := rfl
  have h2 : isPySpace '}' = false := rfl
  show pyStrip (String.mk ('{' :: (joinPairs (m.map printPair) ++ ['}']))) = _
  simp [pyStrip, stripChars, dumps, h1, h2, List.dropWhile_cons, List.reverse_append]

/-- C8: serializing a metrics mapping as a single `YT_METRICS=<json>` line
(the spec's `METRICS=<json>` form) and running `parse_metrics` on that
output returns the identical mapping of keys to numeric/boolean values,
for every mapping whose keys use the characters `json.dumps` passes
through verbatim. -/
theorem parse_metrics_round_trip (m : Metrics)
    (hk : ∀ p ∈ m, ∀ c ∈ (p.1 : String).data, jsonPlainChar c) :
    parse_metrics ("YT_METRICS=" ++ dumps m) = some m := by
  have hkq : ∀ p ∈ m, ∀ c ∈ (p.1 : String).data, c ≠ '"' :=
    fun p hp c hc => (hk p hp c hc).2.2.1
  have hpre : ∀ x ∈ "YT_METRICS=".data, x ≠ '\n' := by decide
  have hnl : ∀ c ∈ ("YT_METRICS=" ++ dumps m).data, c ≠ '\n' := by
    intro c hc
    rw [String.data_append] at hc
    rcases List.mem_append.mp hc with h | h
    · exact hpre c h
    · exact dumps_no_nl m hk c h
  have hne : ("YT_METRICS=" ++ dumps m).data ≠ [] := by
    rw [String.data_append]
    intro h
    exact absurd (List.append_eq_nil.mp h).1 (by decide)
  have hpred : strStarts "YT_METRICS=" ("YT_METRICS=" ++ dumps m) = true := by
    simp only [strStarts, String.data_append]
    exact isPre_self_append _ _
  simp only [parse_metrics, pySplitlines_single _ hnl hne,
    List.find?_cons_of_pos _ hpred, splitOnceAfter_metrics, pyStrip_dumps]
  exact loads_dumps m hkq

/-- The round trip at a concrete mapping with decimal, integral and
boolean values. -/
theorem parse_metrics_round_trip_witness :
    parse_metrics ("YT_METRICS=" ++
        dumps [("top1", MVal.jnum false 0 [9, 5]), ("top5", MVal.jnum false 0 [9, 8]),
          ("trace", MVal.jbool true), ("tokens", MVal.jnum false 10 [])]) =
      some [("top1", MVal.jnum false 0 [9, 5]), ("top5", MVal.jnum false 0 [9, 8]),
        ("trace", MVal.jbool true), ("tokens", MVal.jnum false 10 [])] :=
  parse_metrics_round_trip _ (by decide)

end YtAgents
